import Mathlib

/-!
Verification of the music_bingo core against its specification.

Shallow embedding of the repository sources:
  * src/music_bingo/core/generator.py  (Card, _card_signature, generate_cards)
  * src/music_bingo/core/parser.py     (parse_song_list_text and its regexes)
  * src/music_bingo/core/pdf.py        (_draw_wrapped_text, _draw_grid)

Modelling conventions:
  * Python machine-independent ints are Int, loop counters Nat.
  * The SHA-256 digest in _card_signature is abstracted injectively: the
    signature is modelled as the joined string itself (the digest is a
    function of exactly this string, and distinctness of digests is the
    property the code relies on).
  * random.Random is modelled as an abstract sampler: a state type sigma
    together with a function sample : sigma -> List String -> Nat ->
    List String x sigma.  The documented contract of random.sample
    (k elements drawn at pairwise-distinct positions, in draw order) is the
    predicate SampleSpec below.  Concrete executable samplers (takeSample,
    rotSample) are supplied for witnesses and counterexamples.
  * Python floats in pdf.py are modelled as Rat (all arithmetic in the
    routine is +, -, *, comparison and one floor division, which are exact
    in the same way over Rat); canvas.stringWidth is an abstract function
    String -> Rat -> Rat, instantiated with a monospace model where a
    concrete evaluation is needed.
  * str.casefold is modelled as ASCII lowercasing (the two agree on all
    inputs considered here); the regex \s is modelled as the ASCII
    whitespace class; splitlines is modelled as splitting on the newline
    character (carriage returns are absorbed by the subsequent strip).
-/

/-! ## Generator: src/music_bingo/core/generator.py -/

/-- Card record of generator.py (artists, titles, card_id). -/
structure Card where
  artists : List String
  titles : List String
  card_id : String
deriving Repr, DecidableEq

/-- _card_signature: joined = "\n".join(artists) + "\n---\n" + "\n".join(titles);
the SHA-256 hex digest of joined is abstracted injectively as joined itself. -/
def cardSignature (artists titles : List String) : String :=
  String.intercalate "\n" artists ++ "\n---\n" ++ String.intercalate "\n" titles

/-- The content fingerprint of a card. -/
def sigOf (c : Card) : String :=
  cardSignature c.artists c.titles

/-- Error taxonomy of generate_cards: ValueError (spec: InvalidInput) carrying
its message, and RuntimeError (spec: GenerationExhausted). -/
inductive GenError where
  | invalidInput : String → GenError
  | generationExhausted : GenError
deriving Repr, DecidableEq

/-- Contract of random.sample(l, k) (Python docs): k elements chosen at
pairwise-distinct positions of l, returned in draw order.  Equivalently,
the sample is the k-element prefix of some permutation of l. -/
def SampleSpec {σ : Type} (sample : σ → List String → Nat → List String × σ) : Prop :=
  ∀ (s : σ) (l : List String) (k : Nat), k ≤ l.length →
    ∃ l2 : List String, l2.Perm l ∧ (sample s l k).1 = l2.take k

/-- The body of one attempt of generate_cards: the four rng.sample calls
(sample 25 artists, 25 titles, then the re-sample of each 25-element draw),
the signature, and the candidate card with card_id = sig[:10].  Returns the
candidate, its signature and the advanced rng state. -/
def attemptOnce {σ : Type} (sample : σ → List String → Nat → List String × σ)
    (ua ut : List String) (rng0 : σ) : Card × String × σ :=
  let s1 := sample rng0 ua 25
  let s2 := sample s1.2 ut 25
  let s3 := sample s2.2 s1.1 25
  let s4 := sample s3.2 s2.1 25
  let sig := cardSignature s3.1 s4.1
  (⟨s3.1, s4.1, sig.take 10⟩, sig, s4.2)

/-- Inner attempt loop of generate_cards (for _attempt in range(max_attempts)):
retry while the signature is in the seen set.  Returns the accepted card,
its signature and the advanced rng state, or none when the budget is spent. -/
def attemptCard {σ : Type} (sample : σ → List String → Nat → List String × σ)
    (ua ut : List String) (seen : List String) :
    Nat → σ → Option (Card × String × σ)
  | 0, _ => none
  | n + 1, rng0 =>
    let t := attemptOnce sample ua ut rng0
    if t.2.1 ∈ seen then attemptCard sample ua ut seen n t.2.2
    else some t

/-- Outer loop of generate_cards (for _ in range(count)), threading the seen
set, the accumulated cards (reversed) and the rng state. -/
def generateLoop {σ : Type} (sample : σ → List String → Nat → List String × σ)
    (ua ut : List String) (maxAtt : Nat) :
    Nat → List String → List Card → σ → Option (List Card)
  | 0, _, acc, _ => some acc.reverse
  | n + 1, seen, acc, rng =>
    match attemptCard sample ua ut seen maxAtt rng with
    | none => none
    | some (c, sig, rng') => generateLoop sample ua ut maxAtt n (sig :: seen) (c :: acc) rng'

/-- generate_cards of generator.py.  The rng is passed as an initial state for
an explicit sampler; count is Int so the count <= 0 guard is as in the source. -/
def generate_cards {σ : Type} (sample : σ → List String → Nat → List String × σ)
    (unique_artists unique_titles : List String) (count : Int) (rng0 : σ)
    (max_attempts_per_card : Nat) : Except GenError (List Card) :=
  if unique_artists.length < 25 then
    Except.error (GenError.invalidInput
      ("Need at least 25 unique artists, got " ++ toString unique_artists.length))
  else if unique_titles.length < 25 then
    Except.error (GenError.invalidInput
      ("Need at least 25 unique titles, got " ++ toString unique_titles.length))
  else if count ≤ 0 then
    Except.error (GenError.invalidInput "count must be > 0")
  else
    match generateLoop sample unique_artists unique_titles max_attempts_per_card
        count.toNat [] [] rng0 with
    | none => Except.error GenError.generationExhausted
    | some cs => Except.ok cs

/-- Wellformedness of a card's contents with respect to the vocabularies:
25 pairwise-distinct artists drawn from ua, 25 pairwise-distinct titles
drawn from ut. -/
def GoodCard (ua ut : List String) (c : Card) : Prop :=
  c.artists.length = 25 ∧ c.artists.Nodup ∧ (∀ x ∈ c.artists, x ∈ ua) ∧
    c.titles.length = 25 ∧ c.titles.Nodup ∧ (∀ x ∈ c.titles, x ∈ ut)

/-- random.Random(seed): a seeded state when seed is given, an entropy-derived
state when it is None.  The entropy argument models the OS randomness that
Random() consults only in the None case. -/
def initRngState {σ : Type} (mkState : Int → σ) (entropy : σ) : Option Int → σ
  | some s => mkState s
  | none => entropy

/-- generate_cards as called with a seed argument (seed: int | None). -/
def generate_cards_seeded {σ : Type} (sample : σ → List String → Nat → List String × σ)
    (mkState : Int → σ) (entropy : σ) (unique_artists unique_titles : List String)
    (count : Int) (seed : Option Int) (max_attempts_per_card : Nat) :
    Except GenError (List Card) :=
  generate_cards sample unique_artists unique_titles count
    (initRngState mkState entropy seed) max_attempts_per_card

/-- Deterministic executable sampler: always draws the first k elements.
Satisfies SampleSpec; used for concrete evaluations. -/
def takeSample : Unit → List String → Nat → List String × Unit :=
  fun _ l k => (l.take k, ())

/-- Deterministic executable sampler whose state rotates the list before
taking; distinct successive draws.  Satisfies SampleSpec. -/
def rotSample : Nat → List String → Nat → List String × Nat :=
  fun s l k => ((l.rotate s).take k, s + 1)

/-- A 25-entry pairwise-distinct artist vocabulary for concrete runs. -/
def vocabA : List String :=
  (List.range 25).map (fun n => "A" ++ toString n)

/-- A 25-entry pairwise-distinct title vocabulary for concrete runs. -/
def vocabT : List String :=
  (List.range 25).map (fun n => "T" ++ toString n)

/-- A concrete successful run: two cards from the rotating sampler. -/
def genRun2 : Except GenError (List Card) :=
  generate_cards rotSample vocabA vocabT 2 0 3

/-- The cards of genRun2. -/
def genRun2Cards : List Card :=
  genRun2.toOption.getD []

/-- A concrete one-card run with the take sampler. -/
def genRun1 : Except GenError (List Card) :=
  generate_cards takeSample vocabA vocabT 1 () 1

/-- The cards of genRun1. -/
def genRun1Cards : List Card :=
  genRun1.toOption.getD []

/-- A run whose artist vocabulary has 25 entries but only one distinct string. -/
def dupRun : Except GenError (List Card) :=
  generate_cards takeSample (List.replicate 25 "A") vocabT 1 () 1

/-- The cards of dupRun. -/
def dupCards : List Card :=
  dupRun.toOption.getD []

/-! ## Parser: src/music_bingo/core/parser.py -/

/-- Python regex whitespace class \s, modelled on its ASCII part. -/
def isPySpace (c : Char) : Bool :=
  c = ' ' || c = '\t' || c = '\n' || c = '\r' || c = '\x0b' || c = '\x0c'

/-- The dash class [EN DASH, EM DASH, HYPHEN-MINUS] of _SPLIT_RE. -/
def isDashChar (c : Char) : Bool :=
  c = '–' || c = '—' || c = '-'

/-- str.strip() on a character list. -/
def stripPy (l : List Char) : List Char :=
  ((l.dropWhile isPySpace).reverse.dropWhile isPySpace).reverse

/-- _iter_nonempty_lines: split into lines, strip each, drop the empty ones.
splitlines is modelled as splitting on the newline character. -/
def iterNonemptyLines (text : String) : List String :=
  ((text.toList.splitOn '\n').map (fun l => String.mk (stripPy l))).filter
    (fun l => l ≠ "")

/-- _DECADE_HEADER_RE: ^\s*\d{4}s\s*\(\s*\d+\s*\)\s*$ as a matcher. -/
def matchDecade (l : List Char) : Bool :=
  match l.dropWhile isPySpace with
  | d1 :: d2 :: d3 :: d4 :: 's' :: rest =>
    d1.isDigit && d2.isDigit && d3.isDigit && d4.isDigit &&
    (match rest.dropWhile isPySpace with
     | '(' :: r2 =>
       let r3 := r2.dropWhile isPySpace
       (r3.takeWhile Char.isDigit ≠ []) &&
       (match (r3.dropWhile Char.isDigit).dropWhile isPySpace with
        | ')' :: r6 => r6.dropWhile isPySpace = []
        | _ => false)
     | _ => false)
  | _ => false

/-- _SPLIT_RE.split(line, maxsplit=1): find the leftmost occurrence of
whitespace-run, dash, whitespace-run and split around it.  none when the
pattern does not occur (the split yields a single part). -/
def findDashSplit : List Char → Option (List Char × List Char)
  | [] => none
  | c :: rest =>
    let hit : Option (List Char) :=
      if isPySpace c then
        match rest.dropWhile isPySpace with
        | d :: rest2 =>
          if isDashChar d then
            match rest2 with
            | e :: _ => if isPySpace e then some (rest2.dropWhile isPySpace) else none
            | [] => none
          else none
        | [] => none
      else none
    match hit with
    | some right => some ([], right)
    | none =>
      match findDashSplit rest with
      | some (left, right) => some (c :: left, right)
      | none => none

/-- Replace each whitespace character by a space. -/
def wsToSpace (c : Char) : Char :=
  if isPySpace c then ' ' else c

/-- Collapse runs of spaces to a single space. -/
def squashSpaces : List Char → List Char
  | [] => []
  | c :: rest =>
    match squashSpaces rest with
    | ' ' :: r2 => if c = ' ' then ' ' :: r2 else c :: ' ' :: r2
    | r => c :: r

/-- _WS_RE.sub(" ", s).strip(): collapse internal whitespace runs to single
spaces and trim. -/
def normWs (l : List Char) : String :=
  String.mk (stripPy (squashSpaces (l.map wsToSpace)))

/-- ASCII model of str.casefold. -/
def lowerStr (s : String) : String :=
  String.mk (s.toList.map Char.toLower)

/-- The case-insensitive deduplication key of an (artist, title) pair. -/
def songKey (p : String × String) : String × String :=
  (lowerStr p.1, lowerStr p.2)

/-- The per-line computation of the parse loop body (lines 38-50 of
parser.py): decade headers and unsplittable or empty-part lines yield none
(they are ignored); all other lines yield the normalized (artist, title). -/
def classifyLine (line : String) : Option (String × String) :=
  if matchDecade line.toList then none
  else
    match findDashSplit line.toList with
    | none => none
    | some (lft, rgt) =>
      let artist := normWs lft
      let title := normWs rgt
      if artist = "" || title = "" then none else some (artist, title)

/-- ParseResult of parser.py. -/
structure ParseResult where
  songs : List (String × String)
  unique_artists : List String
  unique_titles : List String
  ignored_lines : List String
deriving Repr, DecidableEq

/-- The accumulator of the parse loop: songs, the seen song keys, the two
casefold-to-first-casing insertion-ordered maps, and the ignored lines. -/
structure ParseState where
  songs : List (String × String)
  seenKeys : List (String × String)
  artistMap : List (String × String)
  titleMap : List (String × String)
  ignored : List String
deriving Repr, DecidableEq

/-- The empty initial parse state. -/
def initParseState : ParseState :=
  ⟨[], [], [], [], []⟩

/-- dict.setdefault(key, value) on an insertion-ordered association list. -/
def setdefault (m : List (String × String)) (key val : String) : List (String × String) :=
  if m.any (fun p => p.1 = key) then m else m ++ [(key, val)]

/-- One iteration of the parse loop of parse_song_list_text. -/
def parseStep (st : ParseState) (line : String) : ParseState :=
  match classifyLine line with
  | none => { st with ignored := st.ignored ++ [line] }
  | some (artist, title) =>
    let key := songKey (artist, title)
    if key ∈ st.seenKeys then st
    else
      { songs := st.songs ++ [(artist, title)]
        seenKeys := st.seenKeys ++ [key]
        artistMap := setdefault st.artistMap (lowerStr artist) artist
        titleMap := setdefault st.titleMap (lowerStr title) title
        ignored := st.ignored }

/-- parse_song_list_text of parser.py. -/
def parse_song_list_text (text : String) : ParseResult :=
  let st := (iterNonemptyLines text).foldl parseStep initParseState
  ⟨st.songs, st.artistMap.map Prod.snd, st.titleMap.map Prod.snd, st.ignored⟩

/-- The (artist, title) pairs successfully classified in a text, in order,
duplicates included. -/
def classifiedPairs (text : String) : List (String × String) :=
  (iterNonemptyLines text).filterMap classifyLine

/-- Invariant of the parse loop, relating the state reached after processing
a prefix of the lines to the classified pairs of that prefix: the seen keys
are exactly the song keys, song keys are pairwise distinct, every recorded
song is the first classified pair with its key, and every classified pair's
key has been seen. -/
def StInv (pairs : List (String × String)) (st : ParseState) : Prop :=
  st.seenKeys = st.songs.map songKey ∧
    (st.songs.map songKey).Nodup ∧
    (∀ p ∈ st.songs, pairs.find? (fun q => decide (songKey q = songKey p)) = some p) ∧
    (∀ q ∈ pairs, songKey q ∈ st.seenKeys)

/-- The three-line example text of the spec. -/
def exampleText7 : String :=
  "1950s (25)\nElvis Presley – Jailhouse Rock\nNotAValidLine"

/-- The case-insensitive duplicate example text of the spec. -/
def exampleText8 : String :=
  "ABBA – Waterloo\nabba - waterloo"

/-! ## Layout engine: src/music_bingo/core/pdf.py

_draw_wrapped_text is modelled as the pure computation of the final font size
and list of lines it draws; canvas.setFont / drawCentredString perform no
further text changes.  canvas.stringWidth is the abstract parameter sw. -/

/-- " ".join(parts). -/
def joinSpace (parts : List String) : String :=
  String.intercalate " " parts

/-- Helper of pySplit: accumulate the current word (reversed). -/
def splitWordsAux : List Char → List Char → List String
  | [], cur => if cur = [] then [] else [String.mk cur.reverse]
  | c :: rest, cur =>
    if isPySpace c then
      if cur = [] then splitWordsAux rest []
      else String.mk cur.reverse :: splitWordsAux rest []
    else splitWordsAux rest (c :: cur)

/-- str.split() with no argument: split on whitespace runs, no empty words. -/
def pySplit (s : String) : List String :=
  splitWordsAux s.toList []

/-- The hard-cut loop of wrap_lines: drop trailing characters until the
ellipsis-suffixed text fits, ending with a bare ellipsis when nothing fits.
The fuel starts at one more than the character count, so it never runs out
before the character list does. -/
def hardCutAux (sw : String → Rat → Rat) (w size : Rat) : Nat → List Char → String
  | 0, _ => "…"
  | _ + 1, [] => "…"
  | fuel + 1, c :: cs =>
    if sw (String.mk (c :: cs) ++ "…") size ≤ w then String.mk (c :: cs) ++ "…"
    else hardCutAux sw w size fuel ((c :: cs).dropLast)

/-- Hard cut of a single over-wide token (and of the last retained line in
the final truncation step, which runs the same loop). -/
def hardCut (sw : String → Rat → Rat) (w size : Rat) (word : String) : String :=
  hardCutAux sw w size (word.toList.length + 1) word.toList

/-- wrap_lines of _draw_wrapped_text: greedy word wrap at a given font size.
The source's .strip() on the trial string is the identity because words
contain no whitespace. -/
def wrapWords (sw : String → Rat → Rat) (w size : Rat) : List String → List String → List String
  | [], current => if current = [] then [] else [joinSpace current]
  | word :: rest, current =>
    if sw (joinSpace (current ++ [word])) size ≤ w then
      wrapWords sw w size rest (current ++ [word])
    else if current ≠ [] then
      joinSpace current :: wrapWords sw w size rest [word]
    else
      hardCut sw w size word :: wrapWords sw w size rest []

/-- The shrink loop of _draw_wrapped_text: while size > min_font_size, stop
when the block fits, else step the size down by 0.5 and re-wrap.  The fuel
passed by _draw_wrapped_text exceeds the possible number of iterations, and
a fuel-exhausted exit returns the same pair the size guard would return. -/
def shrinkLoop (sw : String → Rat → Rat) (words : List String)
    (w h minSize leading : Rat) : Nat → Rat → List String → Rat × List String
  | 0, size, lines => (size, lines)
  | fuel + 1, size, lines =>
    if minSize < size then
      if (lines.length : Rat) * (size * leading) ≤ h then (size, lines)
      else
        shrinkLoop sw words w h minSize leading fuel (size - 1 / 2)
          (wrapWords sw w (size - 1 / 2) words [])
    else (size, lines)

/-- The outcome of _draw_wrapped_text: the font size it sets and the lines it
draws (centred in the cell). -/
structure FittedText where
  size : Rat
  lines : List String
deriving Repr, DecidableEq

/-- The final truncation step of _draw_wrapped_text: when the block still
overflows the cell height at the final size, keep max(1, h // line_height)
lines and run the ellipsis shrink loop on the last retained line. -/
def truncateLines (sw : String → Rat → Rat) (w h size leading : Rat)
    (lines1 : List String) : List String :=
  let lineHeight := size * leading
  if (lines1.length : Rat) * lineHeight > h then
    let maxLines := max 1 (⌊h / lineHeight⌋.toNat)
    let lines2 := lines1.take maxLines
    match lines2.getLast? with
    | none => lines2
    | some last => lines2.dropLast ++ [hardCut sw w size last]
  else lines1

/-- _draw_wrapped_text of pdf.py: wrap, shrink until the block fits or the
floor is reached, then truncate to the lines that fit, ellipsis-marking the
last retained line. -/
def _draw_wrapped_text (sw : String → Rat → Rat) (text : String) (w h : Rat)
    (font_size min_font_size leading_ratio : Rat) : FittedText :=
  let words := pySplit text
  if words = [] then ⟨font_size, []⟩
  else
    let fuel := ⌈(font_size - min_font_size) * 2⌉.toNat + 1
    let p := shrinkLoop sw words w h min_font_size leading_ratio fuel font_size
      (wrapWords sw w font_size words [])
    ⟨p.1, truncateLines sw w h p.1 leading_ratio p.2⟩

/-- What is known of each line drawn by _draw_wrapped_text: it fits the cell
width at the drawn size, or it is one of the input's words standing alone on
its line, or it is a bare ellipsis. -/
def LineOk (sw : String → Rat → Rat) (w size : Rat) (ws : List String) (line : String) : Prop :=
  sw line size ≤ w ∨ line ∈ ws ∨ line = "…"

/-- Monospace instantiation of canvas.stringWidth: every character is one
font-size unit wide. -/
def monoSw (s : String) (size : Rat) : Rat :=
  (s.length : Rat) * size

/-- One cell drawing of _draw_grid: grid coordinates, page position of the
cell's lower-left corner, and the string rendered there (each string is then
drawn inside the cell by _draw_wrapped_text with padding 2). -/
structure CellPlacement where
  col : Nat
  row : Nat
  posX : Rat
  posY : Rat
  text : String
deriving Repr, DecidableEq

/-- _draw_grid of pdf.py, modelled as the list of cell placements it draws:
enumerate(items_list[:25]) with col = idx %% 5, row = idx / 5, and the cell
origin at x + col * cell, y + (4 - row) * cell. -/
def _draw_grid (items : List String) (x y size : Rat) : List CellPlacement :=
  let cell := size / 5
  (items.take 25).enum.map (fun p =>
    ⟨p.1 % 5, p.1 / 5, x + (p.1 % 5 : Nat) * cell,
      y + ((4 - p.1 / 5 : Nat) : Rat) * cell, p.2⟩)

/-- Thirty distinct cell strings for concrete grid runs. -/
def gridItems : List String :=
  (List.range 30).map (fun n => "S" ++ toString n)

/-! ## Theorems: generator -/

theorem takeSample_spec : SampleSpec takeSample := by
  intro s l k _
  exact ⟨l, List.Perm.refl l, rfl⟩

theorem rotSample_spec : SampleSpec rotSample := by
  intro s l k _
  exact ⟨l.rotate s, List.rotate_perm l s, rfl⟩

theorem sample_facts {σ : Type} {sample : σ → List String → Nat → List String × σ}
    (hs : SampleSpec sample) (s : σ) (l : List String) (k : Nat) (hk : k ≤ l.length) :
    (sample s l k).1.length = k ∧ (∀ x ∈ (sample s l k).1, x ∈ l) ∧
      (l.Nodup → (sample s l k).1.Nodup) := by
  obtain ⟨l2, hperm, heq⟩ := hs s l k hk
  rw [heq]
  refine ⟨?_, ?_, ?_⟩
  · rw [List.length_take, hperm.length_eq]
    omega
  · intro x hx
    exact hperm.mem_iff.mp (List.mem_of_mem_take hx)
  · intro hnd
    exact List.Nodup.sublist (List.take_sublist k l2) (hperm.nodup_iff.mpr hnd)

theorem attemptOnce_sig {σ : Type} (sample : σ → List String → Nat → List String × σ)
    (ua ut : List String) (rng0 : σ) :
    sigOf (attemptOnce sample ua ut rng0).1 = (attemptOnce sample ua ut rng0).2.1 ∧
      (attemptOnce sample ua ut rng0).1.card_id =
        ((attemptOnce sample ua ut rng0).2.1).take 10 := by
  unfold attemptOnce sigOf
  exact ⟨rfl, by simp⟩

theorem attemptOnce_good {σ : Type} {sample : σ → List String → Nat → List String × σ}
    (hs : SampleSpec sample) {ua ut : List String}
    (hua : 25 ≤ ua.length) (hut : 25 ≤ ut.length) (hna : ua.Nodup) (hnt : ut.Nodup)
    (rng0 : σ) : GoodCard ua ut (attemptOnce sample ua ut rng0).1 := by
  obtain ⟨hlen1, hmem1, hnd1⟩ := sample_facts hs rng0 ua 25 hua
  obtain ⟨hlen2, hmem2, hnd2⟩ :=
    sample_facts hs (sample rng0 ua 25).2 ut 25 hut
  obtain ⟨hlen3, hmem3, hnd3⟩ :=
    sample_facts hs (sample (sample rng0 ua 25).2 ut 25).2 (sample rng0 ua 25).1 25
      (le_of_eq hlen1.symm)
  obtain ⟨hlen4, hmem4, hnd4⟩ :=
    sample_facts hs
      (sample (sample (sample rng0 ua 25).2 ut 25).2 (sample rng0 ua 25).1 25).2
      (sample (sample rng0 ua 25).2 ut 25).1 25 (le_of_eq hlen2.symm)
  refine ⟨hlen3, hnd3 (hnd1 hna), ?_, hlen4, hnd4 (hnd2 hnt), ?_⟩
  · intro x hx
    exact hmem1 x (hmem3 x hx)
  · intro x hx
    exact hmem2 x (hmem4 x hx)

theorem attemptCard_some_facts {σ : Type}
    (sample : σ → List String → Nat → List String × σ)
    (ua ut seen : List String) :
    ∀ (fuel : Nat) (rng : σ) (c : Card) (sig : String) (rng2 : σ),
      attemptCard sample ua ut seen fuel rng = some (c, sig, rng2) →
      sigOf c = sig ∧ sig ∉ seen ∧ ∃ r : σ, (attemptOnce sample ua ut r).1 = c := by
  intro fuel
  induction fuel with
  | zero =>
    intro rng c sig rng2 h
    simp [attemptCard] at h
  | succ n ih =>
    intro rng c sig rng2 h
    rw [attemptCard] at h
    by_cases hmem : (attemptOnce sample ua ut rng).2.1 ∈ seen
    · rw [if_pos hmem] at h
      exact ih _ c sig rng2 h
    · rw [if_neg hmem] at h
      have hc : (attemptOnce sample ua ut rng).1 = c := congrArg (fun p => p.1) (Option.some.inj h)
      have hsig : (attemptOnce sample ua ut rng).2.1 = sig :=
        congrArg (fun p => p.2.1) (Option.some.inj h)
      refine ⟨?_, ?_, rng, hc⟩
      · rw [← hc, ← hsig]
        exact (attemptOnce_sig sample ua ut rng).1
      · rw [← hsig]
        exact hmem

theorem generateLoop_some_facts {σ : Type}
    (sample : σ → List String → Nat → List String × σ)
    (ua ut : List String) (maxAtt : Nat) :
    ∀ (n : Nat) (seen : List String) (acc : List Card) (rng : σ) (cs : List Card),
      generateLoop sample ua ut maxAtt n seen acc rng = some cs →
      (∀ c ∈ acc, sigOf c ∈ seen) →
      (acc.map sigOf).Nodup →
      cs.length = n + acc.length ∧ (cs.map sigOf).Nodup ∧
        (∀ c ∈ cs, c ∈ acc ∨ ∃ r : σ, (attemptOnce sample ua ut r).1 = c) := by
  intro n
  induction n with
  | zero =>
    intro seen acc rng cs h hseen hnd
    rw [generateLoop] at h
    have hacc : acc.reverse = cs := Option.some.inj h
    subst hacc
    refine ⟨by simp, ?_, ?_⟩
    · rw [List.map_reverse]
      exact List.nodup_reverse.mpr hnd
    · intro c hc
      exact Or.inl (List.mem_reverse.mp hc)
  | succ n ih =>
    intro seen acc rng cs h hseen hnd
    rw [generateLoop] at h
    cases hat : attemptCard sample ua ut seen maxAtt rng with
    | none =>
      rw [hat] at h
      exact absurd h (by simp)
    | some t =>
      rw [hat] at h
      obtain ⟨c, sig, rng2⟩ := t
      obtain ⟨hsig, hnot, hfrom⟩ := attemptCard_some_facts sample ua ut seen maxAtt rng c sig rng2 hat
      have hseen2 : ∀ d ∈ c :: acc, sigOf d ∈ sig :: seen := by
        intro d hd
        rcases List.mem_cons.mp hd with hd | hd
        · subst hd
          rw [hsig]
          exact List.mem_cons_self _ _
        · exact List.mem_cons_of_mem _ (hseen d hd)
      have hnd2 : ((c :: acc).map sigOf).Nodup := by
        rw [List.map_cons]
        refine List.Nodup.cons ?_ hnd
        intro hmem
        rcases List.mem_map.mp hmem with ⟨d, hd, hdeq⟩
        have : sigOf c ∈ seen := hdeq ▸ hseen d hd
        rw [hsig] at this
        exact hnot this
      obtain ⟨hlen, hnod, hsrc⟩ := ih (sig :: seen) (c :: acc) rng2 cs h hseen2 hnd2
      refine ⟨by simp at hlen ⊢; omega, hnod, ?_⟩
      intro d hd
      rcases hsrc d hd with hold | hnew
      · rcases List.mem_cons.mp hold with hdc | hdacc
        · exact Or.inr (hdc ▸ hfrom)
        · exact Or.inl hdacc
      · exact Or.inr hnew

/-- C1: for vocabularies of length at least 25 and positive count, a
successful generate_cards call returns exactly count cards, and every pair
of distinct cards in the result has different content fingerprints, hence
different (artists, titles) contents. -/
theorem generate_cards_count_and_distinct {σ : Type}
    (sample : σ → List String → Nat → List String × σ)
    (ua ut : List String) (count : Int) (rng0 : σ) (m : Nat) (cards : List Card)
    (h25a : 25 ≤ ua.length) (h25t : 25 ≤ ut.length) (hc : 0 < count)
    (hok : generate_cards sample ua ut count rng0 m = Except.ok cards) :
    (cards.length : Int) = count ∧
      List.Pairwise
        (fun c d => sigOf c ≠ sigOf d ∧ (c.artists ≠ d.artists ∨ c.titles ≠ d.titles))
        cards := by
  unfold generate_cards at hok
  rw [if_neg (by omega), if_neg (by omega), if_neg (by omega)] at hok
  cases hloop : generateLoop sample ua ut m count.toNat [] [] rng0 with
  | none =>
    rw [hloop] at hok
    exact absurd hok (by simp)
  | some cs =>
    rw [hloop] at hok
    have hcs : cs = cards := by simpa using hok
    subst hcs
    obtain ⟨hlen, hnd, _⟩ :=
      generateLoop_some_facts sample ua ut m count.toNat [] [] rng0 cs hloop
        (by simp) (by simp)
    constructor
    · rw [hlen]
      simp only [List.length_nil, Nat.add_zero]
      omega
    · have hp : List.Pairwise (fun a b => a ≠ b) (cs.map sigOf) := hnd
      rw [List.pairwise_map] at hp
      refine hp.imp ?_
      intro c d hne
      refine ⟨hne, ?_⟩
      by_contra hcon
      push_neg at hcon
      refine hne ?_
      simp only [sigOf]
      rw [hcon.1, hcon.2]

/-- Witness for C1: the concrete two-card run genRun2. -/
theorem generate_cards_count_and_distinct_witness :
    (genRun2Cards.length : Int) = 2 ∧
      List.Pairwise
        (fun c d => sigOf c ≠ sigOf d ∧ (c.artists ≠ d.artists ∨ c.titles ≠ d.titles))
        genRun2Cards :=
  generate_cards_count_and_distinct rotSample vocabA vocabT 2 0 3 genRun2Cards
    (by decide) (by decide) (by decide) (by rfl)

/-- C2 counterexample: a 25-entry artist vocabulary all of whose entries are
the same string satisfies the claim's precondition (length at least 25), yet
the returned card's 25 artists are not pairwise distinct. -/
theorem generate_cards_dup_vocab_counterexample :
    (List.replicate 25 "A" : List String).length = 25 ∧ (0 : Int) < 1 ∧
      dupRun = Except.ok dupCards ∧
      ∃ c ∈ dupCards, c.artists.length = 25 ∧ ¬ c.artists.Nodup := by
  refine ⟨by decide, by decide, by rfl, ?_⟩
  decide

/-- C2 (amended): under the additional precondition that the vocabulary
entries are pairwise distinct (as the unique_ parameter names and the spec's
vocabulary data model require), every returned card has 25 pairwise-distinct
artists drawn from the artist vocabulary and 25 pairwise-distinct titles
drawn from the title vocabulary. -/
theorem generate_cards_entries_distinct {σ : Type}
    {sample : σ → List String → Nat → List String × σ} (hs : SampleSpec sample)
    (ua ut : List String) (count : Int) (rng0 : σ) (m : Nat) (cards : List Card)
    (hna : ua.Nodup) (hnt : ut.Nodup) (h25a : 25 ≤ ua.length) (h25t : 25 ≤ ut.length)
    (hok : generate_cards sample ua ut count rng0 m = Except.ok cards) :
    ∀ c ∈ cards, GoodCard ua ut c := by
  unfold generate_cards at hok
  rw [if_neg (by omega), if_neg (by omega)] at hok
  by_cases hcnt : count ≤ 0
  · rw [if_pos hcnt] at hok
    exact absurd hok (by simp)
  · rw [if_neg hcnt] at hok
    cases hloop : generateLoop sample ua ut m count.toNat [] [] rng0 with
    | none =>
      rw [hloop] at hok
      exact absurd hok (by simp)
    | some cs =>
      rw [hloop] at hok
      have hcs : cs = cards := by simpa using hok
      subst hcs
      obtain ⟨_, _, hsrc⟩ :=
        generateLoop_some_facts sample ua ut m count.toNat [] [] rng0 cs hloop
          (by simp) (by simp)
      intro c hc
      rcases hsrc c hc with habs | ⟨r, hr⟩
      · exact absurd habs (by simp)
      · rw [← hr]
        exact attemptOnce_good hs h25a h25t hna hnt r

/-- Witness for the amended C2: the concrete one-card run genRun1. -/
theorem generate_cards_entries_distinct_witness :
    vocabA.Nodup ∧ vocabT.Nodup ∧ ∀ c ∈ genRun1Cards, GoodCard vocabA vocabT c :=
  ⟨by decide, by decide,
    generate_cards_entries_distinct takeSample_spec vocabA vocabT 1 () 1 genRun1Cards
      (by decide) (by decide) (by decide) (by decide) (by rfl)⟩

/-- C3: with the same explicit seed and otherwise identical arguments, two
invocations of generate_cards produce identical card sequences; the result
does not depend on the entropy that only a None seed would consume. -/
theorem generate_cards_seed_deterministic {σ : Type}
    (sample : σ → List String → Nat → List String × σ) (mkState : Int → σ)
    (e1 e2 : σ) (ua ut : List String) (count : Int) (s : Int) (m : Nat) :
    generate_cards_seeded sample mkState e1 ua ut count (some s) m =
      generate_cards_seeded sample mkState e2 ua ut count (some s) m := rfl

/-- C4: under the preconditions, generate_cards either returns a full list of
exactly count cards or fails with GenerationExhausted; it never returns a
partial result (and, being a total function, never hangs). -/
theorem generate_cards_complete_or_exhausted {σ : Type}
    (sample : σ → List String → Nat → List String × σ)
    (ua ut : List String) (count : Int) (rng0 : σ) (m : Nat)
    (h25a : 25 ≤ ua.length) (h25t : 25 ≤ ut.length) (hc : 0 < count) :
    (∃ cards, generate_cards sample ua ut count rng0 m = Except.ok cards ∧
        (cards.length : Int) = count) ∨
      generate_cards sample ua ut count rng0 m =
        Except.error GenError.generationExhausted := by
  unfold generate_cards
  rw [if_neg (by omega), if_neg (by omega), if_neg (by omega)]
  cases hloop : generateLoop sample ua ut m count.toNat [] [] rng0 with
  | none =>
    exact Or.inr rfl
  | some cs =>
    refine Or.inl ⟨cs, rfl, ?_⟩
    obtain ⟨hlen, _, _⟩ :=
      generateLoop_some_facts sample ua ut m count.toNat [] [] rng0 cs hloop
        (by simp) (by simp)
    rw [hlen]
    simp only [List.length_nil, Nat.add_zero]
    omega

/-- Witness for C4: a concrete run (constant sampler, count 2, budget 3)
that in fact exhausts its attempt budget. -/
theorem generate_cards_complete_or_exhausted_witness :
    (∃ cards, generate_cards takeSample vocabA vocabT 2 () 3 = Except.ok cards ∧
        (cards.length : Int) = 2) ∨
      generate_cards takeSample vocabA vocabT 2 () 3 =
        Except.error GenError.generationExhausted :=
  generate_cards_complete_or_exhausted takeSample vocabA vocabT 2 () 3
    (by decide) (by decide) (by decide)

/-- C5: a short artist vocabulary, a short title vocabulary, or a
non-positive count each make generate_cards fail with an InvalidInput error
naming the cause (the short vocabulary and its actual size), and in every
such case the result is independent of the sampler, its state and the
attempt budget: the random source is never drawn from. -/
theorem generate_cards_invalid_input {σ σ2 : Type}
    (sample : σ → List String → Nat → List String × σ)
    (sample2 : σ2 → List String → Nat → List String × σ2)
    (ua ut : List String) (count : Int) (rng0 : σ) (rng2 : σ2) (m m2 : Nat) :
    (ua.length < 25 →
      generate_cards sample ua ut count rng0 m =
        Except.error (GenError.invalidInput
          ("Need at least 25 unique artists, got " ++ toString ua.length))) ∧
    (25 ≤ ua.length → ut.length < 25 →
      generate_cards sample ua ut count rng0 m =
        Except.error (GenError.invalidInput
          ("Need at least 25 unique titles, got " ++ toString ut.length))) ∧
    (25 ≤ ua.length → 25 ≤ ut.length → count ≤ 0 →
      generate_cards sample ua ut count rng0 m =
        Except.error (GenError.invalidInput "count must be > 0")) ∧
    ((ua.length < 25 ∨ ut.length < 25 ∨ count ≤ 0) →
      generate_cards sample ua ut count rng0 m =
        generate_cards sample2 ua ut count rng2 m2) := by
  refine ⟨?_, ?_, ?_, ?_⟩
  · intro h1
    unfold generate_cards
    rw [if_pos h1]
  · intro h1 h2
    unfold generate_cards
    rw [if_neg (by omega), if_pos h2]
  · intro h1 h2 h3
    unfold generate_cards
    rw [if_neg (by omega), if_neg (by omega), if_pos h3]
  · intro h
    unfold generate_cards
    by_cases h1 : ua.length < 25
    · rw [if_pos h1, if_pos h1]
    · by_cases h2 : ut.length < 25
      · rw [if_neg h1, if_neg h1, if_pos h2, if_pos h2]
      · have h3 : count ≤ 0 := by tauto
        rw [if_neg h1, if_neg h1, if_neg h2, if_neg h2, if_pos h3, if_pos h3]

/-- Witness for C5: the empty artist vocabulary is reported with its size. -/
theorem generate_cards_invalid_input_witness :
    ([] : List String).length < 25 ∧
      generate_cards takeSample ([] : List String) vocabT 1 () 1000 =
        Except.error (GenError.invalidInput "Need at least 25 unique artists, got 0") :=
  ⟨by decide,
    (generate_cards_invalid_input takeSample takeSample ([] : List String) vocabT
        1 () () 1000 1000).1 (by decide)⟩

/-! ## Theorems: parser -/

theorem stInv_init : StInv [] initParseState :=
  ⟨rfl, List.nodup_nil, by simp [initParseState], by simp⟩

theorem parseStep_ignored (st : ParseState) (line : String) :
    (parseStep st line).ignored =
      st.ignored ++ (if (classifyLine line).isNone then [line] else []) := by
  cases hcl : classifyLine line with
  | none => simp [parseStep, hcl]
  | some p =>
    obtain ⟨a, t⟩ := p
    by_cases hk : songKey (a, t) ∈ st.seenKeys
    · simp [parseStep, hcl, hk]
    · simp [parseStep, hcl, hk]

theorem foldl_parseStep_ignored :
    ∀ (lines : List String) (st : ParseState),
      (lines.foldl parseStep st).ignored =
        st.ignored ++ lines.filter (fun l => (classifyLine l).isNone) := by
  intro lines
  induction lines with
  | nil => intro st; simp
  | cons l ls ih =>
    intro st
    rw [List.foldl_cons, ih, parseStep_ignored, List.filter_cons]
    by_cases hcl : (classifyLine l).isNone
    · simp [hcl]
    · simp [hcl]

theorem parseStep_inv (pairs : List (String × String)) (st : ParseState)
    (h : StInv pairs st) (line : String) :
    StInv (pairs ++ (classifyLine line).toList) (parseStep st line) := by
  obtain ⟨hkeys, hnd, hfind, hall⟩ := h
  cases hcl : classifyLine line with
  | none =>
    simp only [hcl, Option.toList_none, List.append_nil]
    have hstep : parseStep st line = { st with ignored := st.ignored ++ [line] } := by
      simp [parseStep, hcl]
    rw [hstep]
    exact ⟨hkeys, hnd, hfind, hall⟩
  | some p =>
    obtain ⟨a, t⟩ := p
    simp only [hcl, Option.toList_some]
    by_cases hk : songKey (a, t) ∈ st.seenKeys
    · have hstep : parseStep st line = st := by
        simp [parseStep, hcl, hk]
      rw [hstep]
      refine ⟨hkeys, hnd, ?_, ?_⟩
      · intro q hq
        rw [List.find?_append, hfind q hq]
        rfl
      · intro q hq
        rcases List.mem_append.mp hq with hq | hq
        · exact hall q hq
        · have : q = (a, t) := by simpa using hq
          subst this
          exact hk
    · have hstep : parseStep st line =
          { songs := st.songs ++ [(a, t)]
            seenKeys := st.seenKeys ++ [songKey (a, t)]
            artistMap := setdefault st.artistMap (lowerStr a) a
            titleMap := setdefault st.titleMap (lowerStr t) t
            ignored := st.ignored } := by
        simp [parseStep, hcl, hk]
      rw [hstep]
      have hnone : pairs.find? (fun q => decide (songKey q = songKey (a, t))) = none := by
        rw [List.find?_eq_none]
        intro q hq
        simp only [decide_eq_true_eq]
        intro hkey
        exact hk (hkey ▸ hall q hq)
      refine ⟨?_, ?_, ?_, ?_⟩
      · simp only [List.map_append, List.map_cons, List.map_nil]
        rw [hkeys]
      · simp only [List.map_append, List.map_cons, List.map_nil]
        rw [List.nodup_append]
        refine ⟨hnd, List.nodup_singleton _, ?_⟩
        intro k hkmem hkmem2
        have : k = songKey (a, t) := by simpa using hkmem2
        subst this
        exact hk (hkeys ▸ hkmem)
      · intro q hq
        rcases List.mem_append.mp hq with hq | hq
        · rw [List.find?_append, hfind q hq]
          rfl
        · have : q = (a, t) := by simpa using hq
          subst this
          rw [List.find?_append, hnone]
          simp
      · intro q hq
        rcases List.mem_append.mp hq with hq | hq
        · exact List.mem_append_left _ (hall q hq)
        · have : q = (a, t) := by simpa using hq
          subst this
          exact List.mem_append_right _ (by simp)

theorem foldl_parseStep_inv :
    ∀ (lines : List String) (pairs : List (String × String)) (st : ParseState),
      StInv pairs st →
      StInv (pairs ++ lines.filterMap classifyLine) (lines.foldl parseStep st) := by
  intro lines
  induction lines with
  | nil =>
    intro pairs st h
    simpa using h
  | cons l ls ih =>
    intro pairs st h
    rw [List.foldl_cons, List.filterMap_cons]
    have h3 := ih (pairs ++ (classifyLine l).toList) (parseStep st l)
      (parseStep_inv pairs st h l)
    cases hcl : classifyLine l with
    | none =>
      rw [hcl] at h3
      simpa using h3
    | some p =>
      rw [hcl] at h3
      simpa [List.append_assoc] using h3

/-- C7: parsing is total and routes every nonempty line into exactly one
outcome: the ignored lines are exactly the nonempty lines classified as
decade headers, unsplittable lines, or empty-part lines; every other
nonempty line contributes a song pair whose case-insensitive key is in the
song list (as a fresh entry or as a duplicate of an earlier pair); and the
spec's three-line example parses as stated, with the decade header and the
unsplittable line ignored and the Elvis Presley song extracted. -/
theorem parse_routes_lines :
    (∀ text : String,
      (parse_song_list_text text).ignored_lines =
        (iterNonemptyLines text).filter (fun l => (classifyLine l).isNone) ∧
      (∀ line ∈ iterNonemptyLines text, ∀ a t, classifyLine line = some (a, t) →
        ∃ p ∈ (parse_song_list_text text).songs, songKey p = songKey (a, t))) ∧
    parse_song_list_text exampleText7 =
      ⟨[("Elvis Presley", "Jailhouse Rock")], ["Elvis Presley"], ["Jailhouse Rock"],
        ["1950s (25)", "NotAValidLine"]⟩ := by
  constructor
  · intro text
    constructor
    · have h := foldl_parseStep_ignored (iterNonemptyLines text) initParseState
      simpa [parse_song_list_text, initParseState] using h
    · intro line hline a t hcl
      obtain ⟨hkeys, _, _, hall⟩ :=
        foldl_parseStep_inv (iterNonemptyLines text) [] initParseState stInv_init
      have hpair : (a, t) ∈ (iterNonemptyLines text).filterMap classifyLine :=
        List.mem_filterMap.mpr ⟨line, hline, hcl⟩
      have hkey := hall (a, t) (by simpa using hpair)
      rw [hkeys] at hkey
      obtain ⟨p, hp, hpk⟩ := List.mem_map.mp hkey
      exact ⟨p, by simpa [parse_song_list_text] using hp, hpk⟩
  · decide

/-- Witness for C7: the example's Elvis Presley line is classified and its
key reaches the song list. -/
theorem parse_routes_lines_witness :
    ∃ p ∈ (parse_song_list_text exampleText7).songs,
      songKey p = songKey ("Elvis Presley", "Jailhouse Rock") :=
  (parse_routes_lines.1 exampleText7).2 "Elvis Presley – Jailhouse Rock" (by decide)
    "Elvis Presley" "Jailhouse Rock" (by decide)

/-- C8: song pairs are deduplicated by case-insensitive equality of the
(artist, title) pair: the keys of the final song list are pairwise distinct,
every recorded song is the first classified occurrence of its key (so the
first-seen casing is kept), and the spec's ABBA / abba example yields exactly
one song with the first-seen casing. -/
theorem parse_dedups_case_insensitive :
    (∀ text : String,
      ((parse_song_list_text text).songs.map songKey).Nodup ∧
      (∀ p ∈ (parse_song_list_text text).songs,
        (classifiedPairs text).find? (fun q => decide (songKey q = songKey p)) = some p)) ∧
    parse_song_list_text exampleText8 =
      ⟨[("ABBA", "Waterloo")], ["ABBA"], ["Waterloo"], []⟩ := by
  constructor
  · intro text
    obtain ⟨_, hnd, hfind, _⟩ :=
      foldl_parseStep_inv (iterNonemptyLines text) [] initParseState stInv_init
    constructor
    · simpa [parse_song_list_text] using hnd
    · intro p hp
      have h := hfind p (by simpa [parse_song_list_text] using hp)
      simpa [classifiedPairs] using h
  · decide

/-- Witness for C8: the first-seen casing ABBA entry is the first classified
pair with its key in the example. -/
theorem parse_dedups_case_insensitive_witness :
    (classifiedPairs exampleText8).find?
        (fun q => decide (songKey q = songKey ("ABBA", "Waterloo"))) =
      some ("ABBA", "Waterloo") :=
  (parse_dedups_case_insensitive.1 exampleText8).2 ("ABBA", "Waterloo") (by decide)

/-! ## Theorems: layout engine -/

theorem joinSpace_singleton (wd : String) : joinSpace [wd] = wd := rfl

theorem hardCutAux_ok (sw : String → Rat → Rat) (w size : Rat) :
    ∀ (fuel : Nat) (cs : List Char),
      sw (hardCutAux sw w size fuel cs) size ≤ w ∨ hardCutAux sw w size fuel cs = "…" := by
  intro fuel
  induction fuel with
  | zero =>
    intro cs
    exact Or.inr rfl
  | succ n ih =>
    intro cs
    cases cs with
    | nil => exact Or.inr rfl
    | cons c cs2 =>
      rw [hardCutAux]
      by_cases hfit : sw (String.mk (c :: cs2) ++ "…") size ≤ w
      · rw [if_pos hfit]
        exact Or.inl hfit
      · rw [if_neg hfit]
        exact ih _

theorem hardCut_ok (sw : String → Rat → Rat) (w size : Rat) (word : String) :
    sw (hardCut sw w size word) size ≤ w ∨ hardCut sw w size word = "…" :=
  hardCutAux_ok sw w size _ _

theorem wrapWords_lineOk (sw : String → Rat → Rat) (w size : Rat) (ws : List String) :
    ∀ (rest current : List String),
      (∀ x ∈ rest, x ∈ ws) →
      (current = [] ∨ sw (joinSpace current) size ≤ w ∨ ∃ wd ∈ ws, current = [wd]) →
      ∀ line ∈ wrapWords sw w size rest current, LineOk sw w size ws line := by
  intro rest
  induction rest with
  | nil =>
    intro current _ hcur line hline
    rw [wrapWords] at hline
    by_cases hc : current = []
    · rw [if_pos hc] at hline
      exact absurd hline (by simp)
    · rw [if_neg hc] at hline
      have hl : line = joinSpace current := by simpa using hline
      subst hl
      rcases hcur with hcur | hcur | ⟨wd, hwd, hcur⟩
      · exact absurd hcur hc
      · exact Or.inl hcur
      · subst hcur
        rw [joinSpace_singleton]
        exact Or.inr (Or.inl hwd)
  | cons word rest2 ih =>
    intro current hsub hcur line hline
    have hwordmem : word ∈ ws := hsub word (by simp)
    have hsub2 : ∀ x ∈ rest2, x ∈ ws := fun x hx => hsub x (by simp [hx])
    rw [wrapWords] at hline
    by_cases h1 : sw (joinSpace (current ++ [word])) size ≤ w
    · rw [if_pos h1] at hline
      exact ih (current ++ [word]) hsub2 (Or.inr (Or.inl h1)) line hline
    · rw [if_neg h1] at hline
      by_cases h2 : current ≠ []
      · rw [if_pos h2] at hline
        rcases List.mem_cons.mp hline with hl | hl
        · subst hl
          rcases hcur with hcur | hcur | ⟨wd, hwd, hcur⟩
          · exact absurd hcur h2
          · exact Or.inl hcur
          · subst hcur
            rw [joinSpace_singleton]
            exact Or.inr (Or.inl hwd)
        · exact ih [word] hsub2 (Or.inr (Or.inr ⟨word, hwordmem, rfl⟩)) line hl
      · rw [if_neg h2] at hline
        rcases List.mem_cons.mp hline with hl | hl
        · subst hl
          rcases hardCut_ok sw w size word with hh | hh
          · exact Or.inl hh
          · exact Or.inr (Or.inr hh)
        · exact ih [] hsub2 (Or.inl rfl) line hl

theorem shrinkLoop_lines (sw : String → Rat → Rat) (words : List String)
    (w h minSize leading : Rat) :
    ∀ (fuel : Nat) (size : Rat) (lines : List String),
      lines = wrapWords sw w size words [] →
      (shrinkLoop sw words w h minSize leading fuel size lines).2 =
        wrapWords sw w (shrinkLoop sw words w h minSize leading fuel size lines).1
          words [] := by
  intro fuel
  induction fuel with
  | zero =>
    intro size lines hl
    exact hl
  | succ n ih =>
    intro size lines hl
    rw [shrinkLoop]
    by_cases hg : minSize < size
    · rw [if_pos hg]
      by_cases hfit : (lines.length : Rat) * (size * leading) ≤ h
      · rw [if_pos hfit]
        exact hl
      · rw [if_neg hfit]
        exact ih (size - 1 / 2) (wrapWords sw w (size - 1 / 2) words []) rfl
    · rw [if_neg hg]
      exact hl

theorem shrinkLoop_size_gt (sw : String → Rat → Rat) (words : List String)
    (w h minSize leading : Rat) :
    ∀ (fuel : Nat) (size : Rat) (lines : List String),
      minSize - 1 / 2 < size →
      minSize - 1 / 2 < (shrinkLoop sw words w h minSize leading fuel size lines).1 := by
  intro fuel
  induction fuel with
  | zero =>
    intro size lines hs
    exact hs
  | succ n ih =>
    intro size lines hs
    rw [shrinkLoop]
    by_cases hg : minSize < size
    · rw [if_pos hg]
      by_cases hfit : (lines.length : Rat) * (size * leading) ≤ h
      · rw [if_pos hfit]
        exact hs
      · rw [if_neg hfit]
        refine ih (size - 1 / 2) _ (by linarith)
    · rw [if_neg hg]
      exact hs

theorem truncateLines_lineOk (sw : String → Rat → Rat) (w h size leading : Rat)
    (ws : List String) (lines1 : List String)
    (hok : ∀ line ∈ lines1, LineOk sw w size ws line) :
    ∀ line ∈ truncateLines sw w h size leading lines1, LineOk sw w size ws line := by
  intro line hline
  simp only [truncateLines] at hline
  split at hline
  · split at hline
    · exact hok line (List.mem_of_mem_take hline)
    · next last hgl =>
      rcases List.mem_append.mp hline with hl | hl
      · have h1 := (List.dropLast_sublist _).subset hl
        exact hok line (List.mem_of_mem_take h1)
      · obtain rfl := List.mem_singleton.mp hl
        rcases hardCut_ok sw w size last with hh | hh
        · exact Or.inl hh
        · exact Or.inr (Or.inr hh)
  · exact hok line hline

theorem truncateLines_height (sw : String → Rat → Rat) (w h size leading : Rat)
    (lines1 : List String) (hlh : 0 < size * leading) :
    ((truncateLines sw w h size leading lines1).length : Rat) * (size * leading) ≤ h ∨
      (truncateLines sw w h size leading lines1).length ≤ 1 := by
  have key : ∀ lines2 : List String,
      lines2.length ≤ max 1 (⌊h / (size * leading)⌋.toNat) →
      (lines2.length : Rat) * (size * leading) ≤ h ∨ lines2.length ≤ 1 := by
    intro lines2 hlen
    by_cases hfl : ⌊h / (size * leading)⌋.toNat = 0
    · rw [hfl] at hlen
      exact Or.inr (by omega)
    · refine Or.inl ?_
      have hlen2 : lines2.length ≤ ⌊h / (size * leading)⌋.toNat := by omega
      have hpos : 0 < ⌊h / (size * leading)⌋ := by
        rcases lt_or_le 0 (⌊h / (size * leading)⌋) with hp | hp
        · exact hp
        · exact absurd (Int.toNat_of_nonpos hp) hfl
      have hle : (lines2.length : Rat) ≤ ((⌊h / (size * leading)⌋ : Int) : Rat) := by
        rw [← Int.toNat_of_nonneg (le_of_lt hpos)]
        exact_mod_cast hlen2
      have hmul : (lines2.length : Rat) * (size * leading) ≤
          (h / (size * leading)) * (size * leading) :=
        mul_le_mul_of_nonneg_right (le_trans hle (Int.floor_le _)) (le_of_lt hlh)
      rw [div_mul_cancel₀ h (ne_of_gt hlh)] at hmul
      exact hmul
  simp only [truncateLines]
  split
  · split
    · next hgl =>
      refine key _ ?_
      rw [List.length_take]
      omega
    · next last hgl =>
      have hne : lines1.take (max 1 (⌊h / (size * leading)⌋.toNat)) ≠ [] := by
        intro he
        rw [he] at hgl
        simp at hgl
      have hlen : ((lines1.take (max 1 (⌊h / (size * leading)⌋.toNat))).dropLast ++
            [hardCut sw w size last]).length =
          (lines1.take (max 1 (⌊h / (size * leading)⌋.toNat))).length := by
        rw [List.length_append, List.length_dropLast]
        have h1 : 1 ≤ (lines1.take (max 1 (⌊h / (size * leading)⌋.toNat))).length := by
          rcases List.length_pos.mpr hne with hp
          omega
        simp only [List.length_singleton]
        omega
      rw [hlen]
      refine key _ ?_
      rw [List.length_take]
      omega
  · exact Or.inl (not_lt.mp (by assumption))

theorem draw_wrapped_eval_long_word :
    _draw_wrapped_text monoSw "aa bcdefghij" 36 100 9 6 (23 / 20) =
      ⟨9, ["aa", "bcdefghij"]⟩ := by
  have hsplit : pySplit "aa bcdefghij" = ["aa", "bcdefghij"] := rfl
  have c1 : monoSw (joinSpace ([] ++ ["aa"])) 9 ≤ 36 := by
    show ((2 : ℕ) : ℚ) * 9 ≤ 36
    norm_num
  have c2 : ¬ monoSw (joinSpace (["aa"] ++ ["bcdefghij"])) 9 ≤ 36 := by
    show ¬ ((12 : ℕ) : ℚ) * 9 ≤ 36
    norm_num
  have hwrap : wrapWords monoSw 36 9 ["aa", "bcdefghij"] [] = ["aa", "bcdefghij"] := by
    rw [wrapWords, if_pos c1]
    simp only [List.nil_append]
    rw [wrapWords, if_neg c2, if_pos (show (["aa"] : List String) ≠ [] by simp)]
    rw [wrapWords, if_neg (show ¬(["bcdefghij"] : List String) = [] by simp)]
    rfl
  have hfit : ((["aa", "bcdefghij"] : List String).length : ℚ) * (9 * (23 / 20)) ≤ 100 := by
    show ((2 : ℕ) : ℚ) * (9 * (23 / 20)) ≤ 100
    norm_num
  have hshrink : shrinkLoop monoSw ["aa", "bcdefghij"] 36 100 6 (23 / 20)
      (⌈((9 : ℚ) - 6) * 2⌉.toNat + 1) 9 (wrapWords monoSw 36 9 ["aa", "bcdefghij"] []) =
      (9, ["aa", "bcdefghij"]) := by
    rw [hwrap, shrinkLoop, if_pos (show (6 : ℚ) < 9 by norm_num), if_pos hfit]
  have htrunc : truncateLines monoSw 36 100 9 (23 / 20) ["aa", "bcdefghij"] =
      ["aa", "bcdefghij"] := by
    rw [truncateLines]
    rw [if_neg (show ¬ ((["aa", "bcdefghij"] : List String).length : ℚ) * (9 * (23 / 20)) > 100
      from not_lt.mpr hfit)]
  simp only [_draw_wrapped_text, hsplit]
  rw [if_neg (show (["aa", "bcdefghij"] : List String) ≠ [] by simp)]
  rw [hshrink]
  rw [htrunc]

theorem draw_wrapped_eval_tiny_cell :
    _draw_wrapped_text monoSw "hi" 100 1 9 6 (23 / 20) = ⟨6, ["hi…"]⟩ := by
  have hsplit : pySplit "hi" = ["hi"] := rfl
  have hw : ∀ s : ℚ, ((2 : ℕ) : ℚ) * s ≤ 100 → wrapWords monoSw 100 s ["hi"] [] = ["hi"] := by
    intro s hs
    rw [wrapWords, if_pos (show monoSw (joinSpace ([] ++ ["hi"])) s ≤ 100 from hs)]
    simp only [List.nil_append]
    rw [wrapWords, if_neg (show ¬(["hi"] : List String) = [] by simp)]
    rfl
  have step : ∀ (f : Nat) (s : ℚ), 6 < s → ¬ (((1 : ℕ) : ℚ) * (s * (23 / 20)) ≤ 1) →
      shrinkLoop monoSw ["hi"] 100 1 6 (23 / 20) (f + 1) s ["hi"] =
        shrinkLoop monoSw ["hi"] 100 1 6 (23 / 20) f (s - 1 / 2)
          (wrapWords monoSw 100 (s - 1 / 2) ["hi"] []) := by
    intro f s h1 h2
    rw [shrinkLoop, if_pos h1,
      if_neg (show ¬ (((["hi"] : List String).length : ℚ) * (s * (23 / 20)) ≤ 1) from h2)]
  have hchain : shrinkLoop monoSw ["hi"] 100 1 6 (23 / 20) 7 9 ["hi"] = (6, ["hi"]) := by
    rw [show (7 : ℕ) = 6 + 1 from rfl, step 6 9 (by norm_num) (by norm_num),
      hw (9 - 1 / 2) (by norm_num)]
    norm_num
    rw [show (6 : ℕ) = 5 + 1 from rfl, step 5 (17 / 2) (by norm_num) (by norm_num),
      hw (17 / 2 - 1 / 2) (by norm_num)]
    norm_num
    rw [show (5 : ℕ) = 4 + 1 from rfl, step 4 8 (by norm_num) (by norm_num),
      hw (8 - 1 / 2) (by norm_num)]
    norm_num
    rw [show (4 : ℕ) = 3 + 1 from rfl, step 3 (15 / 2) (by norm_num) (by norm_num),
      hw (15 / 2 - 1 / 2) (by norm_num)]
    norm_num
    rw [show (3 : ℕ) = 2 + 1 from rfl, step 2 7 (by norm_num) (by norm_num),
      hw (7 - 1 / 2) (by norm_num)]
    norm_num
    rw [show (2 : ℕ) = 1 + 1 from rfl, step 1 (13 / 2) (by norm_num) (by norm_num),
      hw (13 / 2 - 1 / 2) (by norm_num)]
    norm_num
    rw [show (1 : ℕ) = 0 + 1 from rfl, shrinkLoop, if_neg (show ¬ (6 : ℚ) < 6 by norm_num)]
  have hhc : hardCut monoSw 100 6 "hi" = "hi…" := by
    have h0 : hardCut monoSw 100 6 "hi" = hardCutAux monoSw 100 6 3 ['h', 'i'] := rfl
    rw [h0, show (3 : ℕ) = 2 + 1 from rfl, hardCutAux,
      if_pos (show monoSw (String.mk ['h', 'i'] ++ "…") 6 ≤ 100 from by
        show ((3 : ℕ) : ℚ) * 6 ≤ 100
        norm_num)]
    rfl
  have hfloor : ⌊(1 : ℚ) / (6 * (23 / 20))⌋ = 0 := by
    rw [Int.floor_eq_zero_iff]
    constructor <;> norm_num
  have htr : truncateLines monoSw 100 1 6 (23 / 20) ["hi"] = ["hi…"] := by
    simp only [truncateLines]
    rw [if_pos (show ((["hi"] : List String).length : ℚ) * (6 * (23 / 20)) > 1 from by
      show ((1 : ℕ) : ℚ) * (6 * (23 / 20)) > 1
      norm_num)]
    rw [hfloor]
    norm_num
    rw [hhc]
  have hfuel : ⌈((9 : ℚ) - 6) * 2⌉.toNat + 1 = 7 := by
    have h : ⌈((9 : ℚ) - 6) * 2⌉ = 6 := by norm_num
    rw [h]
    rfl
  simp only [_draw_wrapped_text, hsplit]
  rw [if_neg (show (["hi"] : List String) ≠ [] by simp)]
  rw [hw 9 (by norm_num), hfuel, hchain]
  simp only []
  rw [htr]

/-- C6 counterexample: with the monospace width model and the routine's
default sizes (start 9, floor 6, leading 1.15), two cells of positive width
and height overflow.  First, in a cell 36 wide and 100 high the text
"aa bcdefghij" is drawn as the lines ["aa", "bcdefghij"] at size 9 with no
ellipsis anywhere, and the second line is 81 wide, exceeding the cell width:
a long word in non-initial position is never hard-truncated.  Second, in a
cell 100 wide and 1 high the text "hi" is drawn as the single line "hi…" at
size 6, whose block height 6.9 exceeds the cell height. -/
theorem draw_wrapped_text_overflow_counterexample :
    (_draw_wrapped_text monoSw "aa bcdefghij" 36 100 9 6 (23 / 20) =
        ⟨9, ["aa", "bcdefghij"]⟩ ∧
      monoSw "bcdefghij" 9 > 36) ∧
    (_draw_wrapped_text monoSw "hi" 100 1 9 6 (23 / 20) = ⟨6, ["hi…"]⟩ ∧
      ((["hi…"] : List String).length : ℚ) * (6 * (23 / 20)) > 1) := by
  refine ⟨⟨draw_wrapped_eval_long_word, ?_⟩, ⟨draw_wrapped_eval_tiny_cell, ?_⟩⟩
  · show ((9 : ℕ) : ℚ) * 9 > 36
    norm_num
  · show ((1 : ℕ) : ℚ) * (6 * (23 / 20)) > 1
    norm_num

/-- C6 (amended): _draw_wrapped_text is a total function (it never raises)
and, whenever the floor size is at least half a point and at most the
starting size and the leading ratio is positive: every drawn line fits the
cell width at the final size except possibly a line consisting of a single
input word (a long word in non-initial wrap position is not hard-truncated)
or a bare ellipsis in a cell narrower than the ellipsis; and the block
height fits the cell height whenever more than one line is kept (a single
kept line can overflow a cell shorter than one line-height). -/
theorem draw_wrapped_text_fits (sw : String → Rat → Rat) (text : String) (w h : Rat)
    (fs ms lr : Rat) (hms : (1 : Rat) / 2 ≤ ms) (hfs : ms ≤ fs) (hlr : 0 < lr) :
    (∀ line ∈ (_draw_wrapped_text sw text w h fs ms lr).lines,
        sw line (_draw_wrapped_text sw text w h fs ms lr).size ≤ w ∨
          line ∈ pySplit text ∨ line = "…") ∧
    (((_draw_wrapped_text sw text w h fs ms lr).lines.length : Rat) *
        ((_draw_wrapped_text sw text w h fs ms lr).size * lr) ≤ h ∨
      (_draw_wrapped_text sw text w h fs ms lr).lines.length ≤ 1) := by
  by_cases hw : pySplit text = []
  · constructor
    · intro line hline
      simp only [_draw_wrapped_text, if_pos hw] at hline
      exact absurd hline (by simp)
    · refine Or.inr ?_
      simp [_draw_wrapped_text, hw]
  · have hd : _draw_wrapped_text sw text w h fs ms lr =
        ⟨(shrinkLoop sw (pySplit text) w h ms lr (⌈(fs - ms) * 2⌉.toNat + 1) fs
            (wrapWords sw w fs (pySplit text) [])).1,
          truncateLines sw w h
            (shrinkLoop sw (pySplit text) w h ms lr (⌈(fs - ms) * 2⌉.toNat + 1) fs
              (wrapWords sw w fs (pySplit text) [])).1 lr
            (shrinkLoop sw (pySplit text) w h ms lr (⌈(fs - ms) * 2⌉.toNat + 1) fs
              (wrapWords sw w fs (pySplit text) [])).2⟩ := by
      simp only [_draw_wrapped_text]
      rw [if_neg hw]
    rw [hd]
    generalize hP : shrinkLoop sw (pySplit text) w h ms lr (⌈(fs - ms) * 2⌉.toNat + 1) fs
      (wrapWords sw w fs (pySplit text) []) = P
    have hpair : P.2 = wrapWords sw w P.1 (pySplit text) [] := by
      rw [← hP]
      exact shrinkLoop_lines sw (pySplit text) w h ms lr _ fs _ rfl
    have hsz : ms - 1 / 2 < P.1 := by
      rw [← hP]
      exact shrinkLoop_size_gt sw (pySplit text) w h ms lr _ fs _ (by linarith)
    have hlineok : ∀ line ∈ P.2, LineOk sw w P.1 (pySplit text) line := by
      rw [hpair]
      exact wrapWords_lineOk sw w P.1 (pySplit text) (pySplit text) [] (fun x hx => hx)
        (Or.inl rfl)
    constructor
    · intro line hline
      exact truncateLines_lineOk sw w h P.1 lr (pySplit text) P.2 hlineok line hline
    · exact truncateLines_height sw w h P.1 lr P.2 (mul_pos (by linarith) hlr)

/-- Witness for the amended C6: the default sizes at a roomy cell. -/
theorem draw_wrapped_text_fits_witness :
    ((1 : Rat) / 2 ≤ 6 ∧ (6 : Rat) ≤ 9 ∧ (0 : Rat) < 23 / 20) ∧
    ((∀ line ∈ (_draw_wrapped_text monoSw "hello world" 100 100 9 6 (23 / 20)).lines,
        monoSw line (_draw_wrapped_text monoSw "hello world" 100 100 9 6 (23 / 20)).size ≤ 100 ∨
          line ∈ pySplit "hello world" ∨ line = "…") ∧
      (((_draw_wrapped_text monoSw "hello world" 100 100 9 6 (23 / 20)).lines.length : Rat) *
          ((_draw_wrapped_text monoSw "hello world" 100 100 9 6 (23 / 20)).size * (23 / 20)) ≤ 100 ∨
        (_draw_wrapped_text monoSw "hello world" 100 100 9 6 (23 / 20)).lines.length ≤ 1)) :=
  ⟨⟨by norm_num, by norm_num, by norm_num⟩,
    draw_wrapped_text_fits monoSw "hello world" 100 100 9 6 (23 / 20)
      (by norm_num) (by norm_num) (by norm_num)⟩

/-- C9: _draw_grid fills the 5 by 5 grid in row-major reading order: for
every index idx below 25, the idx-th placement is in column idx mod 5 and
row idx div 5 (counted from the visual top) at page position
(x + col * cell, y + (4 - row) * cell), carrying the idx-th string; and for
a positive grid size, rows with smaller index sit strictly higher on the
page, so row 0 is the topmost row. -/
theorem draw_grid_row_major (items : List String) (x y size : Rat) (idx : Nat)
    (hidx : idx < 25) :
    (_draw_grid items x y size).get? idx =
      (items.get? idx).map (fun t =>
        ⟨idx % 5, idx / 5, x + ((idx % 5 : Nat) : Rat) * (size / 5),
          y + (((4 - idx / 5 : Nat)) : Rat) * (size / 5), t⟩) ∧
    (∀ p ∈ _draw_grid items x y size, ∀ q ∈ _draw_grid items x y size,
      0 < size → p.row < q.row → q.posY < p.posY) := by
  constructor
  · simp only [_draw_grid]
    rw [List.get?_map, List.get?_enum, List.get?_take hidx, Option.map_map]
    rfl
  · intro p hp q hq hsize hrow
    simp only [_draw_grid, List.mem_map] at hp hq
    obtain ⟨⟨i, a⟩, hpi, hpe⟩ := hp
    obtain ⟨⟨j, b⟩, hqj, hqe⟩ := hq
    have hgi : (items.take 25).get? i = some a := List.mem_enum_iff_get?.mp hpi
    have hgj : (items.take 25).get? j = some b := List.mem_enum_iff_get?.mp hqj
    have hi25 : i < 25 := by
      obtain ⟨hlt, _⟩ := List.get?_eq_some.mp hgi
      rw [List.length_take] at hlt
      omega
    have hj25 : j < 25 := by
      obtain ⟨hlt, _⟩ := List.get?_eq_some.mp hgj
      rw [List.length_take] at hlt
      omega
    rw [← hpe, ← hqe] at hrow ⊢
    simp only at hrow ⊢
    have h4 : (4 - j / 5 : Nat) < (4 - i / 5 : Nat) := by omega
    have h4q : ((4 - j / 5 : Nat) : Rat) < ((4 - i / 5 : Nat) : Rat) := by
      exact_mod_cast h4
    have hc : (0 : Rat) < size / 5 := by positivity
    have := mul_lt_mul_of_pos_right h4q hc
    linarith

/-- Witness for C9: the concrete 30-item grid at index 7 (column 2, row 1). -/
theorem draw_grid_row_major_witness :
    (_draw_grid gridItems 10 20 100).get? 7 =
      (gridItems.get? 7).map (fun t =>
        ⟨7 % 5, 7 / 5, 10 + ((7 % 5 : Nat) : Rat) * (100 / 5),
          20 + (((4 - 7 / 5 : Nat)) : Rat) * (100 / 5), t⟩) ∧
    (∀ p ∈ _draw_grid gridItems 10 20 100, ∀ q ∈ _draw_grid gridItems 10 20 100,
      (0 : Rat) < 100 → p.row < q.row → q.posY < p.posY) :=
  draw_grid_row_major gridItems 10 20 100 7 (by decide)

/-- C10: _draw_grid renders at most the first 25 items: the placement list
has min(length, 25) entries (fewer than 25 items leave the remaining cells
without a placement) and items beyond index 24 are ignored, with no error in
either case (the function is total). -/
theorem draw_grid_first_25 (items : List String) (x y size : Rat) :
    (_draw_grid items x y size).length = min items.length 25 ∧
    _draw_grid items x y size = _draw_grid (items.take 25) x y size := by
  constructor
  · simp only [_draw_grid, List.length_map, List.enum_length, List.length_take]
    omega
  · simp [_draw_grid, List.take_take]
